import Mathlib

/-!
Verification development for the AlphaSparse triangular/diagonal solve core.

Shallow embedding of:
  - src/kernel/arm/level3/trsm/coo/diagsm_x_coo_n_row.c  (COO diagonal solve, non-unit, row-major)
  - src/core/op/level3/alphasparse_x_trsm.c              (solve entry point and dispatch)
  - src/plain/kernel/level2/mv/trmv/coo/trmv_c_coo_u_lo_conj_plain.c (COO trmv, unit lower, conj)
  - src/core/format/alphasparse_x_export_gebsr.c         (GEBSR export)

Dense buffers are modelled as total functions from flat indices to values; sparse COO
storage is modelled as the list of (row_indx[r], col_indx[r], values[r]) triples in
storage order.  Machine integers are modelled as Nat (the code only uses non-negative
indices and counts on the paths considered).  The numeric element type is a type
parameter with the arithmetic operations the kernels use.
-/

namespace AlphaSparse

/-- Status codes returned by the library (alphasparse_status_t).  Only the
constructors actually produced by the embedded code are needed. -/
inductive Status where
  | success
  | not_initialized
  | invalid_value
  | not_supported
deriving DecidableEq, Repr

/-- Modelled from the spec: the algebraic operation of the operation descriptor,
with the C enum encoding non-transpose = 0, transpose = 1, conjugate-transpose = 2
(spec section 3, Operation Descriptor; the enum header is not part of the shown source). -/
inductive Operation where
  | non_transpose
  | transpose_op
  | conjugate_transpose
deriving DecidableEq, Repr

/-- Numeric encoding of the operation enum. -/
def Operation.toNat : Operation → Nat
  | .non_transpose => 0
  | .transpose_op => 1
  | .conjugate_transpose => 2

/-- Modelled from the spec: dense layout enum, row-major = 0, column-major = 1. -/
inductive Layout where
  | row_major
  | col_major
deriving DecidableEq, Repr

/-- Numeric encoding of the layout enum. -/
def Layout.toNat : Layout → Nat
  | .row_major => 0
  | .col_major => 1

/-- Modelled from the spec: triangle fill mode enum, lower = 0, upper = 1. -/
inductive FillMode where
  | lower
  | upper
deriving DecidableEq, Repr

/-- Numeric encoding of the fill mode enum. -/
def FillMode.toNat : FillMode → Nat
  | .lower => 0
  | .upper => 1

/-- Modelled from the spec: diagonal-unit flag enum, non-unit = 0, unit = 1. -/
inductive DiagType where
  | non_unit
  | unit_diag
deriving DecidableEq, Repr

/-- Numeric encoding of the diagonal type enum. -/
def DiagType.toNat : DiagType → Nat
  | .non_unit => 0
  | .unit_diag => 1

/-- Modelled from the spec: the matrix semantic type of the operation descriptor
(spec section 3); only triangular and diagonal are dispatched, anything else falls
through to the not-supported branch of the entry point. -/
inductive MatrixKind where
  | general
  | symmetric
  | hermitian
  | triangular
  | diagonal
deriving DecidableEq, Repr

/-- Sparse storage format tag of a matrix handle (alphasparse_format_t).  The six
formats dispatched by the trsm entry point plus GEBSR (used by the export path). -/
inductive Format where
  | csr
  | csc
  | coo
  | sky
  | bsr
  | dia
  | gebsr
deriving DecidableEq, Repr

/-- Numeric datatype tag of a matrix handle (alphasparse_datatype_t): real
single/double, complex single/double. -/
inductive Datatype where
  | float_s
  | double_d
  | complex_c
  | complex_z
deriving DecidableEq, Repr

/-- Whether a build datatype is complex; the COMPLEX preprocessor flag of the source
is defined exactly for the two complex instantiations. -/
def Datatype.isComplex : Datatype → Bool
  | .float_s => false
  | .double_d => false
  | .complex_c => true
  | .complex_z => true

/-- Modelled from the spec: the index2 macro of alphasparse/util.h (not among the
shown sources); flat row-major addressing, index2(r, c, ld) = r * ld + c
(spec section 4.2: fields combined with the trailing count as radix). -/
def index2 (r c ld : Nat) : Nat := r * ld + c

/-- Modelled from the spec: the index4 macro of alphasparse/util.h (not among the
shown sources); mixed-radix composite key
index4(a, b, c, d, nb, nc, nd) = ((a * nb + b) * nc + c) * nd + d. -/
def index4 (a b c d nb nc nd : Nat) : Nat := ((a * nb + b) * nc + c) * nd + d

/-- Modelled from the spec: ALPHA_SPARSE_LAYOUT_NUM, the number of layout enum values. -/
def LAYOUT_NUM : Nat := 2

/-- Modelled from the spec: ALPHA_SPARSE_FILL_MODE_NUM, the number of fill mode enum values. -/
def FILL_MODE_NUM : Nat := 2

/-- Modelled from the spec: ALPHA_SPARSE_DIAG_TYPE_NUM, the number of diagonal type enum values. -/
def DIAG_TYPE_NUM : Nat := 2

/-- COO storage (ALPHA_SPMAT_COO): row count, column count, and the stored entries
as the list of triples (row_indx[r], col_indx[r], values[r]) for r = 0 .. nnz-1 in
storage order. -/
structure SPMAT_COO (α : Type) where
  rows : Nat
  cols : Nat
  entries : List (Nat × Nat × α)
deriving DecidableEq, Repr

/-- Diagonal extraction pass of diagsm_x_coo_n_row.c (first loop, lines 16-22):
start from the zeroed scratch array and, for each stored entry in order, if its
row index equals its column index write its value into that diagonal slot.
The scratch array of length rows is modelled as a total function. -/
def coo_diag_pass {α : Type} [Zero α] (entryOrder : List (Nat × Nat × α)) : Nat → α :=
  entryOrder.foldl
    (fun d e => if e.1 = e.2.1 then Function.update d e.1 e.2.2 else d)
    (fun _ => 0)

/-- Second pass of diagsm_x_coo_n_row.c (lines 27-35): for each row r and each
right-hand-side column c, compute t = alpha * x[index2(r,c,ldx)] and store
y[index2(r,c,ldy)] = t / diag[r]. -/
def diagsm_pass2 {α : Type} [Mul α] [Div α]
    (alpha : α) (x : Nat → α) (columns ldx ldy : Nat) (dg : Nat → α)
    (rowOrder : List Nat) (y : Nat → α) : Nat → α :=
  rowOrder.foldl
    (fun y r =>
      (List.range columns).foldl
        (fun y c =>
          Function.update y (index2 r c ldy) ((alpha * x (index2 r c ldx)) / dg r))
        y)
    y

/-- Modelled from the spec (section 5): the OpenMP parallel-for regions of
diagsm_x_coo_n_row.c visit the nnz entries (first region) and the rows (second
region) in an order chosen by the runtime; this variant makes those visiting
orders explicit parameters.  The sequential kernel is this function at the
storage order and the ascending row order. -/
def diagsm_x_coo_n_row_sched {α : Type} [Zero α] [Mul α] [Div α]
    (alpha : α) (A : SPMAT_COO α) (x : Nat → α) (columns ldx : Nat)
    (y : Nat → α) (ldy : Nat)
    (entryOrder : List (Nat × Nat × α)) (rowOrder : List Nat) :
    Status × (Nat → α) :=
  let diag := coo_diag_pass entryOrder
  (Status.success, diagsm_pass2 alpha x columns ldx ldy diag rowOrder y)

/-- The COO non-unit diagonal solve kernel, row-major
(diagsm_x_coo_n_row.c, function ONAME): extract the diagonal into a scratch
array, then overwrite y[index2(r,c,ldy)] with alpha * x[index2(r,c,ldx)] / diag[r]
for every 0 <= r < rows and 0 <= c < columns, and return success. -/
def diagsm_x_coo_n_row {α : Type} [Zero α] [Mul α] [Div α]
    (alpha : α) (A : SPMAT_COO α) (x : Nat → α) (columns ldx : Nat)
    (y : Nat → α) (ldy : Nat) : Status × (Nat → α) :=
  diagsm_x_coo_n_row_sched alpha A x columns ldx y ldy A.entries (List.range A.rows)

/-- Complex number with rational components, modelling the complex element type
of the c-precision build (exact arithmetic stands in for the floating components;
the kernel uses only multiply, add and conjugate, which are exact in structure). -/
@[ext]
structure Cplx where
  re : ℚ
  im : ℚ
deriving DecidableEq, Repr

instance : Zero Cplx := ⟨⟨0, 0⟩⟩

instance : Add Cplx := ⟨fun a b => ⟨a.re + b.re, a.im + b.im⟩⟩

instance : Mul Cplx := ⟨fun a b => ⟨a.re * b.re - a.im * b.im, a.re * b.im + a.im * b.re⟩⟩

/-- The cmp_conj macro of the numeric abstraction: complex conjugation, negating
the imaginary part (spec section 4.1). -/
def cmp_conj (z : Cplx) : Cplx := ⟨z.re, -z.im⟩

/-- The plain COO triangular multiply kernel, unit diagonal, lower fill,
conjugate operation, complex type (trmv_c_coo_u_lo_conj_plain.c, function ONAME):
reject non-square input; set y[i] = y[i] * beta + alpha * x[i] for every i below
rows (alpha_mule then alpha_madde); then for every stored entry (r, c, v) in
storage order with r > c add alpha * (conj v * x[r]) into y[c]; return success. -/
def trmv_c_coo_u_lo_conj_plain (alpha : Cplx) (A : SPMAT_COO Cplx) (x : Nat → Cplx)
    (beta : Cplx) (y : Nat → Cplx) : Status × (Nat → Cplx) :=
  if A.rows ≠ A.cols then (Status.invalid_value, y)
  else
    let y1 := (List.range A.rows).foldl
      (fun y i => Function.update y i (y i * beta + alpha * x i)) y
    let y2 := A.entries.foldl
      (fun y e =>
        if e.2.1 < e.1 then
          Function.update y e.2.1 (y e.2.1 + alpha * (cmp_conj e.2.2 * x e.1))
        else y)
      y1
    (Status.success, y2)

/-- Concrete complex COO matrix with one strictly-lower entry, one strictly-upper
entry and one diagonal entry. -/
def cplxW : SPMAT_COO Cplx := ⟨2, 2, [(1, 0, ⟨1, 2⟩), (0, 1, ⟨3, 4⟩), (0, 0, ⟨5, 6⟩)]⟩

/-- Concrete complex dense input buffer. -/
def xC : Nat → Cplx := fun k => ⟨(k : ℚ) + 1, 1⟩

/-- Concrete complex dense output buffer. -/
def yC : Nat → Cplx := fun k => ⟨(k : ℚ), 2⟩

/-- Concrete COO matrix used to evaluate the kernel theorems: a 2 by 2 lower
triangular matrix with diagonal entries 2 and 3 and one sub-diagonal entry. -/
def cooW : SPMAT_COO Int := ⟨2, 2, [(0, 0, 2), (1, 0, 5), (1, 1, 3)]⟩

/-- Concrete COO matrix with a missing diagonal entry in row 1. -/
def cooMissing : SPMAT_COO Int := ⟨2, 2, [(0, 0, 2)]⟩

/-- Concrete empty COO matrix. -/
def cooEmpty : SPMAT_COO Int := ⟨0, 0, []⟩

/-- Concrete dense input buffer. -/
def xW : Nat → Int := fun k => (k : Int) + 1

/-- Concrete dense output buffer. -/
def yW : Nat → Int := fun _ => 0

/-- Matrix handle (the alphasparse_matrix struct): the format-specific storage
behind the mat pointer is an opaque payload (none models a NULL mat); datatype
and format tag the payload.  Modelled from the spec: the row and column counts
compared by the check_equal_row_col util macro (not among the shown sources) are
carried on the handle (spec section 3, Sparse Matrix Handle). -/
structure alphasparse_matrix (μ : Type) where
  mat : Option μ
  datatype : Datatype
  format : Format
  rows : Nat
  cols : Nat

/-- The operation descriptor struct alpha_matrix_descr: semantic type, fill mode
and diagonal type. -/
structure alpha_matrix_descr where
  type : MatrixKind
  mode : FillMode
  diag : DiagType
deriving DecidableEq, Repr

/-- Type of the kernels stored in the trsm dispatch tables: alpha, the
format-specific matrix payload, x, columns, ldx, y, ldy; result is a status and
the final contents of y. -/
def TrsmKernel (μ α : Type) : Type :=
  α → μ → (Nat → α) → Nat → Nat → (Nat → α) → Nat → Status × (Nat → α)

/-- The static dispatch tables of alphasparse_x_trsm.c: one triangular table and
one diagonal table per format, abstracted as partial maps from the computed
dispatch key (none models a null slot or an out-of-range index; the kernels the
build links into the slots are external to the shown source, so the tables are a
parameter of the entry point model). -/
structure TrsmTables (μ α : Type) where
  trsmTab : Format → Nat → Option (TrsmKernel μ α)
  diagTab : Format → Nat → Option (TrsmKernel μ α)

/-- The per-format dispatch block repeated in each format branch of
alphasparse_x_trsm.c: for triangular descriptors look up the four-field key in
the triangular table, for diagonal descriptors the two-field key in the diagonal
table; a null slot returns not-supported with y untouched, any other semantic
type returns not-supported, otherwise the resolved kernel runs and its status
and output are returned. -/
def trsm_dispatch {μ α : Type} (operation : Operation) (alpha : α) (m : μ)
    (descr : alpha_matrix_descr) (layout : Layout) (xv : Nat → α)
    (columns ldx : Nat) (yv : Nat → α) (ldy : Nat) (y : Option (Nat → α))
    (ttab dtab : Nat → Option (TrsmKernel μ α)) : Status × Option (Nat → α) :=
  if descr.type = MatrixKind.triangular then
    match ttab (index4 operation.toNat layout.toNat descr.mode.toNat descr.diag.toNat
        LAYOUT_NUM FILL_MODE_NUM DIAG_TYPE_NUM) with
    | none => (Status.not_supported, y)
    | some k =>
      let r := k alpha m xv columns ldx yv ldy
      (r.1, some r.2)
  else if descr.type = MatrixKind.diagonal then
    match dtab (index2 layout.toNat descr.diag.toNat DIAG_TYPE_NUM) with
    | none => (Status.not_supported, y)
    | some k =>
      let r := k alpha m xv columns ldx yv ldy
      (r.1, some r.2)
  else (Status.not_supported, y)

/-- The triangular/diagonal solve entry point (alphasparse_x_trsm.c, function
ONAME).  BD is the datatype of the compiled instantiation (the per-build
ALPHA_SPARSE_DATATYPE constant); its isComplex flag is the COMPLEX preprocessor
condition, so the conjugate-transpose rejection is active exactly in real
builds.  Null pointers are modelled by none; the result is the status together
with the final contents of y. -/
def alphasparse_x_trsm {μ α : Type} (BD : Datatype) (T : TrsmTables μ α)
    (operation : Operation) (alpha : α) (A : alphasparse_matrix μ)
    (descr : alpha_matrix_descr) (layout : Layout)
    (x : Option (Nat → α)) (columns ldx : Nat)
    (y : Option (Nat → α)) (ldy : Nat) : Status × Option (Nat → α) :=
  match A.mat with
  | none => (Status.not_initialized, y)
  | some m =>
    match x with
    | none => (Status.not_initialized, y)
    | some xv =>
      match y with
      | none => (Status.not_initialized, y)
      | some yv =>
        if A.datatype ≠ BD then (Status.invalid_value, y)
        else if BD.isComplex = false ∧ operation = Operation.conjugate_transpose then
          (Status.invalid_value, y)
        else if A.rows ≠ A.cols then (Status.invalid_value, y)
        else
          match A.format with
          | Format.csr =>
            trsm_dispatch operation alpha m descr layout xv columns ldx yv ldy y
              (T.trsmTab Format.csr) (T.diagTab Format.csr)
          | Format.csc =>
            trsm_dispatch operation alpha m descr layout xv columns ldx yv ldy y
              (T.trsmTab Format.csc) (T.diagTab Format.csc)
          | Format.coo =>
            trsm_dispatch operation alpha m descr layout xv columns ldx yv ldy y
              (T.trsmTab Format.coo) (T.diagTab Format.coo)
          | Format.sky =>
            trsm_dispatch operation alpha m descr layout xv columns ldx yv ldy y
              (T.trsmTab Format.sky) (T.diagTab Format.sky)
          | Format.bsr =>
            trsm_dispatch operation alpha m descr layout xv columns ldx yv ldy y
              (T.trsmTab Format.bsr) (T.diagTab Format.bsr)
          | Format.dia =>
            trsm_dispatch operation alpha m descr layout xv columns ldx yv ldy y
              (T.trsmTab Format.dia) (T.diagTab Format.dia)
          | _ => (Status.not_supported, y)

/-- External index base enum (alphasparse_index_base_t). -/
inductive IndexBase where
  | zero_base
  | one_base
deriving DecidableEq, Repr

/-- GEBSR storage (ALPHA_SPMAT_GEBSR): block grid dimensions, block dimensions,
block layout, offset and index arrays and the value array. -/
structure SPMAT_GEBSR (α : Type) where
  rows : Nat
  cols : Nat
  row_block_dim : Nat
  col_block_dim : Nat
  block_layout : Layout
  rows_start : List Nat
  rows_end : List Nat
  col_indx : List Nat
  values : List α
deriving DecidableEq, Repr

/-- The output parameters written by the GEBSR export (one field per pointer
argument of alphasparse_x_export_gebsr.c). -/
structure GebsrExportOut (α : Type) where
  indexing : IndexBase
  block_layout : Layout
  rows : Nat
  cols : Nat
  block_row_dim : Nat
  block_col_dim : Nat
  rows_start : List Nat
  rows_end : List Nat
  col_indx : List Nat
  values : List α
deriving DecidableEq, Repr

/-- The GEBSR export operation (alphasparse_x_export_gebsr.c, function ONAME):
a null internal matrix returns not-supported, a datatype or format mismatch
returns invalid-value, in both cases without writing any output parameter
(modelled by none); otherwise every output parameter is written - the indexing
always as the zero base, the rest copied from the stored matrix - and success is
returned. -/
def alphasparse_x_export_gebsr {α : Type} (BD : Datatype)
    (source : alphasparse_matrix (SPMAT_GEBSR α)) : Status × Option (GebsrExportOut α) :=
  match source.mat with
  | none => (Status.not_supported, none)
  | some mat =>
    if source.datatype ≠ BD then (Status.invalid_value, none)
    else if source.format ≠ Format.gebsr then (Status.invalid_value, none)
    else
      (Status.success,
       some ⟨IndexBase.zero_base, mat.block_layout, mat.rows, mat.cols,
             mat.row_block_dim, mat.col_block_dim, mat.rows_start, mat.rows_end,
             mat.col_indx, mat.values⟩)

/-- Concrete dispatch tables with every slot null. -/
def tablesNone : TrsmTables Unit Int := ⟨fun _ _ => none, fun _ _ => none⟩

/-- Concrete well-formed square handle with an opaque payload. -/
def handleOkUnit : alphasparse_matrix Unit :=
  ⟨some (), Datatype.double_d, Format.csr, 2, 2⟩

/-- Concrete handle whose internal matrix pointer is null. -/
def handleNullUnit : alphasparse_matrix Unit :=
  ⟨none, Datatype.double_d, Format.csr, 2, 2⟩

/-- Concrete non-square handle. -/
def handleRect : alphasparse_matrix Unit :=
  ⟨some (), Datatype.double_d, Format.csr, 2, 3⟩

/-- Concrete square handle in the GEBSR format, which the trsm dispatch does not
serve. -/
def handleGebsrUnit : alphasparse_matrix Unit :=
  ⟨some (), Datatype.double_d, Format.gebsr, 2, 2⟩

/-- Concrete triangular descriptor. -/
def descrTri : alpha_matrix_descr :=
  ⟨MatrixKind.triangular, FillMode.lower, DiagType.non_unit⟩

/-- Concrete general-type descriptor. -/
def descrGen : alpha_matrix_descr :=
  ⟨MatrixKind.general, FillMode.lower, DiagType.non_unit⟩

/-- Concrete GEBSR storage. -/
def gebsrPayload : SPMAT_GEBSR Int :=
  ⟨2, 2, 1, 1, Layout.row_major, [0, 1], [1, 2], [0, 1], [3, 4]⟩

/-- Concrete valid GEBSR handle. -/
def gebsrHandle : alphasparse_matrix (SPMAT_GEBSR Int) :=
  ⟨some gebsrPayload, Datatype.double_d, Format.gebsr, 2, 2⟩

/-- Concrete GEBSR handle with a null internal matrix. -/
def gebsrNullHandle : alphasparse_matrix (SPMAT_GEBSR Int) :=
  ⟨none, Datatype.double_d, Format.gebsr, 2, 2⟩

/-- Concrete GEBSR handle with a mismatched datatype. -/
def gebsrWrongType : alphasparse_matrix (SPMAT_GEBSR Int) :=
  ⟨some gebsrPayload, Datatype.float_s, Format.gebsr, 2, 2⟩

/-- Concrete handle carrying GEBSR storage but tagged with another format. -/
def gebsrWrongFormat : alphasparse_matrix (SPMAT_GEBSR Int) :=
  ⟨some gebsrPayload, Datatype.double_d, Format.csr, 2, 2⟩

section DiagPassHelpers

variable {α : Type} [Zero α]

/-- If two scratch arrays agree at slot j, running the extraction fold from either
one yields the same value at j (the written value of each step does not depend on
the accumulator). -/
theorem coo_diag_fold_agree (l : List (Nat × Nat × α)) :
    ∀ (d d' : Nat → α) (j : Nat), d j = d' j →
      l.foldl (fun d e => if e.1 = e.2.1 then Function.update d e.1 e.2.2 else d) d j
        = l.foldl (fun d e => if e.1 = e.2.1 then Function.update d e.1 e.2.2 else d) d' j := by
  induction l with
  | nil => intro d d' j h; exact h
  | cons e t ih =>
    intro d d' j h
    simp only [List.foldl_cons]
    apply ih
    by_cases he : e.1 = e.2.1
    · rw [if_pos he, if_pos he, Function.update_apply, Function.update_apply]
      by_cases hj : j = e.1
      · rw [if_pos hj, if_pos hj]
      · rw [if_neg hj, if_neg hj]; exact h
    · rw [if_neg he, if_neg he]; exact h

/-- Entries that are not at position (i, i) leave slot i of the scratch array
unchanged. -/
theorem coo_diag_fold_skip (l : List (Nat × Nat × α)) :
    ∀ (d : Nat → α) (i : Nat), (∀ e ∈ l, ¬(e.1 = i ∧ e.2.1 = i)) →
      l.foldl (fun d e => if e.1 = e.2.1 then Function.update d e.1 e.2.2 else d) d i = d i := by
  induction l with
  | nil => intro d i _; rfl
  | cons e t ih =>
    intro d i h
    simp only [List.foldl_cons]
    rw [ih _ i (fun e' he' => h e' (List.mem_cons_of_mem _ he'))]
    by_cases he : e.1 = e.2.1
    · have hne : e.1 ≠ i := by
        intro hei
        exact h e (List.mem_cons_self e t) ⟨hei, he.symm.trans hei⟩
      rw [if_pos he, Function.update_apply, if_neg (fun hh : i = e.1 => hne hh.symm)]
    · rw [if_neg he]

/-- If no stored entry sits at position (i, i), the extracted diagonal value for
row i is the zero left by the memset. -/
theorem coo_diag_pass_eq_zero (l : List (Nat × Nat × α)) (i : Nat)
    (h : ∀ e ∈ l, ¬(e.1 = i ∧ e.2.1 = i)) : coo_diag_pass l i = 0 :=
  coo_diag_fold_skip l _ i h

/-- Running the extraction fold over a list that stores (i, i, v), all of whose
values stored at position (i, i) equal v, ends with v in slot i, for any initial
scratch array. -/
theorem coo_diag_fold_mem (l : List (Nat × Nat × α)) :
    ∀ (d : Nat → α) (i : Nat) (v : α), (i, i, v) ∈ l →
      (∀ w, (i, i, w) ∈ l → w = v) →
      l.foldl (fun d e => if e.1 = e.2.1 then Function.update d e.1 e.2.2 else d) d i = v := by
  induction l with
  | nil => intro d i v hmem _; exact absurd hmem (List.not_mem_nil _)
  | cons e t ih =>
    intro d i v hmem huniq
    simp only [List.foldl_cons]
    by_cases het : (i, i, v) ∈ t
    · exact ih _ i v het (fun w hw => huniq w (List.mem_cons_of_mem _ hw))
    · have he : e = (i, i, v) := by
        rcases List.mem_cons.mp hmem with h1 | h2
        · exact h1.symm
        · exact absurd h2 het
      subst he
      have hskip : ∀ e' ∈ t, ¬(e'.1 = i ∧ e'.2.1 = i) := by
        rintro e' he' ⟨h1, h2⟩
        have hval : e' = (i, i, e'.2.2) := by
          obtain ⟨a, b, w⟩ := e'
          simp only at h1 h2
          rw [h1, h2]
        rw [hval] at he'
        have hv2 : e'.2.2 = v := huniq e'.2.2 (List.mem_cons_of_mem _ he')
        rw [hv2] at he'
        exact het he'
      rw [coo_diag_fold_skip t _ i hskip]
      simp

/-- If some entry (i, i, v) is stored and every stored value at position (i, i)
equals v, the extracted diagonal value for row i is v. -/
theorem coo_diag_pass_eq_of_unique (l : List (Nat × Nat × α)) (i : Nat) (v : α)
    (hmem : (i, i, v) ∈ l) (huniq : ∀ w, (i, i, w) ∈ l → w = v) :
    coo_diag_pass l i = v :=
  coo_diag_fold_mem l _ i v hmem huniq

end DiagPassHelpers

/-- Distinct (row, column) cells with in-bounds column offsets have distinct flat
row-major addresses. -/
theorem index2_inj {r c r' c' ld : Nat} (hc : c < ld) (hc' : c' < ld)
    (h : index2 r c ld = index2 r' c' ld) : r = r' ∧ c = c' := by
  unfold index2 at h
  have hld : 0 < ld := Nat.lt_of_le_of_lt (Nat.zero_le c) hc
  have h1 : (r * ld + c) / ld = r := by
    rw [Nat.mul_comm, Nat.mul_add_div hld, Nat.div_eq_of_lt hc, Nat.add_zero]
  have h2 : (r' * ld + c') / ld = r' := by
    rw [Nat.mul_comm, Nat.mul_add_div hld, Nat.div_eq_of_lt hc', Nat.add_zero]
  have hr : r = r' := by rw [← h1, ← h2, h]
  refine ⟨hr, ?_⟩
  subst hr
  exact Nat.add_left_cancel h

section RangeUpdate

variable {α : Type}

/-- Writing cells g 0, ..., g (n-1) in order with acc-independent values leaves
v c in cell g c when g is injective. -/
theorem range_update_write (g : Nat → Nat) (v : Nat → α)
    (hg : ∀ a b, g a = g b → a = b) :
    ∀ (n : Nat) (y : Nat → α) (c : Nat), c < n →
      ((List.range n).foldl (fun y c => Function.update y (g c) (v c)) y) (g c) = v c := by
  intro n
  induction n with
  | zero => intro y c hc; exact absurd hc (Nat.not_lt_zero c)
  | succ m ih =>
    intro y c hc
    rw [List.range_succ, List.foldl_append, List.foldl_cons, List.foldl_nil]
    by_cases hcm : c = m
    · subst hcm
      rw [Function.update_same]
    · have hc' : c < m := Nat.lt_of_le_of_ne (Nat.lt_succ_iff.mp hc) hcm
      rw [Function.update_apply, if_neg (fun hh : g c = g m => hcm (hg c m hh))]
      exact ih y c hc'

/-- Cells outside the written range g 0, ..., g (n-1) are untouched. -/
theorem range_update_untouched (g : Nat → Nat) (v : Nat → α) :
    ∀ (n : Nat) (y : Nat → α) (k : Nat), (∀ c, c < n → g c ≠ k) →
      ((List.range n).foldl (fun y c => Function.update y (g c) (v c)) y) k = y k := by
  intro n
  induction n with
  | zero => intro y k _; rw [List.range_zero, List.foldl_nil]
  | succ m ih =>
    intro y k h
    rw [List.range_succ, List.foldl_append, List.foldl_cons, List.foldl_nil]
    rw [Function.update_apply, if_neg (fun hh : k = g m => h m (Nat.lt_succ_self m) hh.symm)]
    exact ih y k (fun c hc => h c (Nat.lt_succ_of_lt hc))

end RangeUpdate

section Pass2Helpers

variable {α : Type} [Mul α] [Div α]
variable (alpha : α) (x : Nat → α) (columns ldx ldy : Nat) (dg : Nat → α)

/-- Cells addressed by no processed (row, column) pair are untouched by the
element-wise output pass. -/
theorem diagsm_pass2_untouched :
    ∀ (q : List Nat) (y : Nat → α) (k : Nat),
      (∀ r ∈ q, ∀ c, c < columns → index2 r c ldy ≠ k) →
      diagsm_pass2 alpha x columns ldx ldy dg q y k = y k := by
  intro q
  induction q with
  | nil => intro y k _; rfl
  | cons a t ih =>
    intro y k h
    simp only [diagsm_pass2, List.foldl_cons] at ih ⊢
    rw [ih _ k (fun r hr => h r (List.mem_cons_of_mem _ hr))]
    exact range_update_untouched (fun c => index2 a c ldy)
      (fun c => (alpha * x (index2 a c ldx)) / dg a) columns y k
      (fun c hc => h a (List.mem_cons_self a t) c hc)

/-- Every processed (row, column) pair ends with the quotient value in its cell,
provided the row stride covers the processed columns. -/
theorem diagsm_pass2_write :
    ∀ (q : List Nat) (y : Nat → α) (r c : Nat), r ∈ q → c < columns → columns ≤ ldy →
      diagsm_pass2 alpha x columns ldx ldy dg q y (index2 r c ldy)
        = (alpha * x (index2 r c ldx)) / dg r := by
  intro q
  induction q with
  | nil => intro y r c hr _ _; exact absurd hr (List.not_mem_nil r)
  | cons a t ih =>
    intro y r c hr hc hld
    simp only [diagsm_pass2, List.foldl_cons] at ih ⊢
    by_cases hrt : r ∈ t
    · exact ih _ r c hrt hc hld
    · have har : a = r := by
        rcases List.mem_cons.mp hr with h1 | h2
        · exact h1.symm
        · exact absurd h2 hrt
      subst har
      have huntouched : ∀ r' ∈ t, ∀ c', c' < columns → index2 r' c' ldy ≠ index2 a c ldy := by
        intro r' hr' c' hc' heq
        have := index2_inj (Nat.lt_of_lt_of_le hc' hld) (Nat.lt_of_lt_of_le hc hld) heq
        exact hrt (this.1 ▸ hr')
      have hstep := diagsm_pass2_untouched alpha x columns ldx ldy dg t
        ((List.range columns).foldl
          (fun y c => Function.update y (index2 a c ldy) ((alpha * x (index2 a c ldx)) / dg a)) y)
        (index2 a c ldy) huntouched
      simp only [diagsm_pass2] at hstep
      rw [hstep]
      exact range_update_write (fun c => index2 a c ldy)
        (fun c => (alpha * x (index2 a c ldx)) / dg a)
        (fun b b' hbb => by
          unfold index2 at hbb
          exact Nat.add_left_cancel hbb)
        columns y c hc

end Pass2Helpers

/-- A fold whose body returns its accumulator unchanged is the identity. -/
theorem foldlFixed {γ δ : Type} {f : δ → γ → δ} (hf : ∀ a b, f a b = a) :
    ∀ (l : List γ) (a : δ), l.foldl f a = a := by
  intro l
  induction l with
  | nil => intro a; rfl
  | cons e t ih => intro a; rw [List.foldl_cons, hf a e]; exact ih a

/-- A list of length at most one has at most one member. -/
theorem eq_of_length_le_one {γ : Type} :
    ∀ (l : List γ), l.length ≤ 1 → ∀ x ∈ l, ∀ y ∈ l, x = y := by
  intro l h x hx y hy
  cases l with
  | nil => exact absurd hx (List.not_mem_nil x)
  | cons a t =>
    cases t with
    | nil =>
      rw [List.mem_singleton.mp hx, List.mem_singleton.mp hy]
    | cons b t2 =>
      simp only [List.length_cons] at h
      omega

/-- C1: on a square COO matrix, the non-unit row-major diagonal solve kernel
extracts the stored diagonal into a scratch vector (the stored value at (i, i),
zero if absent), overwrites exactly the cells y[i * ldy + c] for 0 <= i < rows
and 0 <= c < columns with alpha * x[i * ldx + c] / d[i], and returns success. -/
theorem diagsm_coo_n_row_spec {α : Type} [Zero α] [Mul α] [Div α]
    (alpha : α) (A : SPMAT_COO α) (x : Nat → α) (columns ldx : Nat)
    (y : Nat → α) (ldy : Nat)
    (hsq : A.rows = A.cols) (hld : columns ≤ ldy) :
    (diagsm_x_coo_n_row alpha A x columns ldx y ldy).1 = Status.success ∧
    (∀ i c, i < A.rows → c < columns →
      (diagsm_x_coo_n_row alpha A x columns ldx y ldy).2 (index2 i c ldy)
        = (alpha * x (index2 i c ldx)) / coo_diag_pass A.entries i) ∧
    (∀ k, (∀ i c, i < A.rows → c < columns → index2 i c ldy ≠ k) →
      (diagsm_x_coo_n_row alpha A x columns ldx y ldy).2 k = y k) ∧
    (∀ i, (∀ e ∈ A.entries, ¬(e.1 = i ∧ e.2.1 = i)) → coo_diag_pass A.entries i = 0) ∧
    (∀ i v, (i, i, v) ∈ A.entries → (∀ w, (i, i, w) ∈ A.entries → w = v) →
      coo_diag_pass A.entries i = v) := by
  refine ⟨rfl, ?_, ?_, ?_, ?_⟩
  · intro i c hi hc
    exact diagsm_pass2_write alpha x columns ldx ldy (coo_diag_pass A.entries)
      (List.range A.rows) y i c (List.mem_range.mpr hi) hc hld
  · intro k hk
    exact diagsm_pass2_untouched alpha x columns ldx ldy (coo_diag_pass A.entries)
      (List.range A.rows) y k (fun r hr c hc => hk r c (List.mem_range.mp hr) hc)
  · intro i h
    exact coo_diag_pass_eq_zero A.entries i h
  · intro i v hmem huniq
    exact coo_diag_pass_eq_of_unique A.entries i v hmem huniq

/-- Evaluation of the C1 theorem at a concrete square matrix, with every
hypothesis discharged at that input. -/
theorem diagsm_coo_n_row_spec_witness :
    (cooW.rows = cooW.cols) ∧ (1 ≤ 1) ∧
    ((diagsm_x_coo_n_row (2 : Int) cooW xW 1 1 yW 1).1 = Status.success ∧
      (diagsm_x_coo_n_row (2 : Int) cooW xW 1 1 yW 1).2 (index2 1 0 1)
        = ((2 : Int) * xW (index2 1 0 1)) / coo_diag_pass cooW.entries 1) :=
  ⟨rfl, Nat.le_refl 1,
   (diagsm_coo_n_row_spec 2 cooW xW 1 1 yW 1 rfl (Nat.le_refl 1)).1,
   (diagsm_coo_n_row_spec 2 cooW xW 1 1 yW 1 rfl (Nat.le_refl 1)).2.1 1 0
     (by decide) (by decide)⟩

/-- C4: with zero rows or zero right-hand-side columns the diagonal solve kernel
returns success without writing any cell of y. -/
theorem diagsm_coo_n_row_empty {α : Type} [Zero α] [Mul α] [Div α]
    (alpha : α) (A : SPMAT_COO α) (x : Nat → α) (columns ldx : Nat)
    (y : Nat → α) (ldy : Nat)
    (h : A.rows = 0 ∨ columns = 0) :
    diagsm_x_coo_n_row alpha A x columns ldx y ldy = (Status.success, y) := by
  rcases h with h | h
  · simp only [diagsm_x_coo_n_row]
    rw [h]
    simp only [diagsm_x_coo_n_row_sched, List.range_zero, diagsm_pass2, List.foldl_nil]
  · subst h
    simp only [diagsm_x_coo_n_row, diagsm_x_coo_n_row_sched, diagsm_pass2]
    exact congrArg (Prod.mk Status.success) (foldlFixed (fun a b => rfl) _ _)

/-- Evaluation of the C4 theorem at concrete inputs for both degenerate shapes. -/
theorem diagsm_coo_n_row_empty_witness :
    (cooEmpty.rows = 0 ∨ 1 = 0) ∧
    diagsm_x_coo_n_row (2 : Int) cooEmpty xW 1 1 yW 1 = (Status.success, yW) ∧
    (cooW.rows = 0 ∨ 0 = 0) ∧
    diagsm_x_coo_n_row (2 : Int) cooW xW 0 1 yW 1 = (Status.success, yW) :=
  ⟨Or.inl rfl, diagsm_coo_n_row_empty 2 cooEmpty xW 1 1 yW 1 (Or.inl rfl),
   Or.inr rfl, diagsm_coo_n_row_empty 2 cooW xW 0 1 yW 1 (Or.inr rfl)⟩

/-- C5: in the COO diagonal-extraction pass, an entry whose row index equals its
column index writes exactly its own diagonal slot (any entry leaves slot j
unchanged when j is not its row index or it is off-diagonal), and among several
stored entries at the same (i, i) the one occurring latest in storage order
supplies the extracted value. -/
theorem coo_diag_pass_last_write {α : Type} [Zero α]
    (l1 l2 : List (Nat × Nat × α)) (r c j : Nat) (v : α) :
    ((j ≠ r ∨ r ≠ c) →
      coo_diag_pass (l1 ++ (r, c, v) :: l2) j = coo_diag_pass (l1 ++ l2) j) ∧
    (r = c → (∀ e ∈ l2, ¬(e.1 = r ∧ e.2.1 = r)) →
      coo_diag_pass (l1 ++ (r, c, v) :: l2) r = v) := by
  constructor
  · intro h
    unfold coo_diag_pass
    rw [List.foldl_append, List.foldl_append, List.foldl_cons]
    apply coo_diag_fold_agree
    by_cases hrc : r = c
    · have hj : j ≠ r := by
        rcases h with h | h
        · exact h
        · exact absurd hrc h
      rw [if_pos (show (r, c, v).1 = (r, c, v).2.1 from hrc)]
      rw [Function.update_apply, if_neg hj]
    · rw [if_neg (show ¬((r, c, v).1 = (r, c, v).2.1) from hrc)]
  · intro hrc hl2
    subst hrc
    unfold coo_diag_pass
    rw [List.foldl_append, List.foldl_cons]
    rw [coo_diag_fold_skip l2 _ r hl2]
    simp

/-- Evaluation of the C5 theorem at a concrete entry list, with every hypothesis
discharged at that input. -/
theorem coo_diag_pass_last_write_witness :
    (coo_diag_pass ([((0 : Nat), (1 : Nat), (7 : Int))] ++ (0, 0, 5) :: [(1, 1, 4)]) 1
      = coo_diag_pass ([((0 : Nat), (1 : Nat), (7 : Int))] ++ [(1, 1, 4)]) 1) ∧
    (coo_diag_pass ([((0 : Nat), (1 : Nat), (7 : Int))] ++ (0, 0, 5) :: [(1, 1, 4)]) 0
      = 5) :=
  ⟨(coo_diag_pass_last_write [(0, 1, 7)] [(1, 1, 4)] 0 0 1 5).1 (Or.inl (by decide)),
   (coo_diag_pass_last_write [(0, 1, 7)] [(1, 1, 4)] 0 0 1 5).2 rfl (by decide)⟩

/-- C9: the COO non-unit diagonal solve kernel validates nothing and returns
success on every input; when row i has no stored diagonal entry, the divisor used
for the cells of row i is the zero left in the zero-initialized scratch array. -/
theorem diagsm_coo_n_row_unguarded {α : Type} [Zero α] [Mul α] [Div α]
    (alpha : α) (A : SPMAT_COO α) (x : Nat → α) (columns ldx : Nat)
    (y : Nat → α) (ldy : Nat) :
    (diagsm_x_coo_n_row alpha A x columns ldx y ldy).1 = Status.success ∧
    (∀ i c, i < A.rows → c < columns → columns ≤ ldy →
      (∀ e ∈ A.entries, ¬(e.1 = i ∧ e.2.1 = i)) →
      (diagsm_x_coo_n_row alpha A x columns ldx y ldy).2 (index2 i c ldy)
        = (alpha * x (index2 i c ldx)) / (0 : α)) := by
  refine ⟨rfl, ?_⟩
  intro i c hi hc hld hno
  have hw : (diagsm_x_coo_n_row alpha A x columns ldx y ldy).2 (index2 i c ldy)
      = (alpha * x (index2 i c ldx)) / coo_diag_pass A.entries i :=
    diagsm_pass2_write alpha x columns ldx ldy (coo_diag_pass A.entries)
      (List.range A.rows) y i c (List.mem_range.mpr hi) hc hld
  rw [hw, coo_diag_pass_eq_zero A.entries i hno]

/-- C6: on a COO matrix without duplicate stored diagonal entries, the order in
which the parallel runtime visits the nnz entries (first region) and the rows
(second region) has no effect on the result: any two visiting orders produce the
same status and the same y.  The worker count only selects such an order, so two
runs with different worker counts coincide. -/
theorem diagsm_coo_n_row_schedule_independent {α : Type} [Zero α] [Mul α] [Div α]
    (alpha : α) (A : SPMAT_COO α) (x : Nat → α) (columns ldx : Nat)
    (y : Nat → α) (ldy : Nat)
    (hdup : ∀ i, (A.entries.filter (fun e => decide (e.1 = i ∧ e.2.1 = i))).length ≤ 1)
    (hld : columns ≤ ldy)
    (s1 s2 : List (Nat × Nat × α)) (q1 q2 : List Nat)
    (hs1 : s1.Perm A.entries) (hs2 : s2.Perm A.entries)
    (hq1 : q1.Perm (List.range A.rows)) (hq2 : q2.Perm (List.range A.rows)) :
    diagsm_x_coo_n_row_sched alpha A x columns ldx y ldy s1 q1
      = diagsm_x_coo_n_row_sched alpha A x columns ldx y ldy s2 q2 := by
  have huv : ∀ i v w, (i, i, v) ∈ A.entries → (i, i, w) ∈ A.entries → v = w := by
    intro i v w hv hw
    have hvf : (i, i, v) ∈ A.entries.filter (fun e => decide (e.1 = i ∧ e.2.1 = i)) :=
      List.mem_filter.mpr ⟨hv, by simp⟩
    have hwf : (i, i, w) ∈ A.entries.filter (fun e => decide (e.1 = i ∧ e.2.1 = i)) :=
      List.mem_filter.mpr ⟨hw, by simp⟩
    have := eq_of_length_le_one _ (hdup i) _ hvf _ hwf
    exact congrArg (fun e => e.2.2) this
  have hdg : coo_diag_pass s1 = coo_diag_pass s2 := by
    funext i
    by_cases hex : ∃ v, (i, i, v) ∈ A.entries
    · obtain ⟨v, hv⟩ := hex
      have h1 : coo_diag_pass s1 i = v :=
        coo_diag_pass_eq_of_unique s1 i v (hs1.mem_iff.mpr hv)
          (fun w hw => huv i w v (hs1.mem_iff.mp hw) hv)
      have h2 : coo_diag_pass s2 i = v :=
        coo_diag_pass_eq_of_unique s2 i v (hs2.mem_iff.mpr hv)
          (fun w hw => huv i w v (hs2.mem_iff.mp hw) hv)
      rw [h1, h2]
    · have hno : ∀ (s : List (Nat × Nat × α)), s.Perm A.entries →
          ∀ e ∈ s, ¬(e.1 = i ∧ e.2.1 = i) := by
        rintro s hs e he ⟨h1, h2⟩
        apply hex
        refine ⟨e.2.2, ?_⟩
        have hval : e = (i, i, e.2.2) := by
          obtain ⟨a, b, w⟩ := e
          simp only at h1 h2
          rw [h1, h2]
        rw [← hval]
        exact hs.mem_iff.mp he
      rw [coo_diag_pass_eq_zero s1 i (hno s1 hs1), coo_diag_pass_eq_zero s2 i (hno s2 hs2)]
  simp only [diagsm_x_coo_n_row_sched]
  rw [hdg]
  refine congrArg (Prod.mk Status.success) ?_
  funext k
  by_cases hk : ∃ r, r < A.rows ∧ ∃ c, c < columns ∧ index2 r c ldy = k
  · obtain ⟨r, hr, c, hc, hek⟩ := hk
    rw [← hek]
    rw [diagsm_pass2_write alpha x columns ldx ldy (coo_diag_pass s2) q1 y r c
      (hq1.mem_iff.mpr (List.mem_range.mpr hr)) hc hld]
    rw [diagsm_pass2_write alpha x columns ldx ldy (coo_diag_pass s2) q2 y r c
      (hq2.mem_iff.mpr (List.mem_range.mpr hr)) hc hld]
  · push_neg at hk
    rw [diagsm_pass2_untouched alpha x columns ldx ldy (coo_diag_pass s2) q1 y k
      (fun r hr c hc => hk r (List.mem_range.mp (hq1.mem_iff.mp hr)) c hc)]
    rw [diagsm_pass2_untouched alpha x columns ldx ldy (coo_diag_pass s2) q2 y k
      (fun r hr c hc => hk r (List.mem_range.mp (hq2.mem_iff.mp hr)) c hc)]

/-- Evaluation of the C6 theorem at a concrete matrix and two concrete visiting
orders, with every hypothesis discharged at that input. -/
theorem diagsm_coo_n_row_schedule_independent_witness :
    (∀ i, (cooW.entries.filter (fun e => decide (e.1 = i ∧ e.2.1 = i))).length ≤ 1) ∧
    diagsm_x_coo_n_row_sched (2 : Int) cooW xW 1 1 yW 1
        [(1, 0, 5), (0, 0, 2), (1, 1, 3)] [1, 0]
      = diagsm_x_coo_n_row_sched (2 : Int) cooW xW 1 1 yW 1
        [(0, 0, 2), (1, 0, 5), (1, 1, 3)] [0, 1] := by
  constructor
  · intro i
    show ((cooW.entries.filter (fun e => decide (e.1 = i ∧ e.2.1 = i))).length ≤ 1)
    by_cases h0 : i = 0
    · subst h0; decide
    · by_cases h1 : i = 1
      · subst h1; decide
      · have : cooW.entries.filter (fun e => decide (e.1 = i ∧ e.2.1 = i)) = [] := by
          simp only [cooW, List.filter]
          simp [h0, h1, Ne.symm h0, Ne.symm h1]
        rw [this]
        decide
  · exact diagsm_coo_n_row_schedule_independent 2 cooW xW 1 1 yW 1
      (fun i => by
        by_cases h0 : i = 0
        · subst h0; decide
        · by_cases h1 : i = 1
          · subst h1; decide
          · have : cooW.entries.filter (fun e => decide (e.1 = i ∧ e.2.1 = i)) = [] := by
              simp only [cooW, List.filter]
              simp [h0, h1, Ne.symm h0, Ne.symm h1]
            rw [this]
            decide)
      (by decide) _ _ _ _ (by decide) (by decide) (by decide) (by decide)

/-- Evaluation of the C9 theorem at a concrete matrix whose row 1 has no stored
diagonal entry, with every hypothesis discharged at that input. -/
theorem diagsm_coo_n_row_unguarded_witness :
    (diagsm_x_coo_n_row (2 : Int) cooMissing xW 1 1 yW 1).1 = Status.success ∧
    (diagsm_x_coo_n_row (2 : Int) cooMissing xW 1 1 yW 1).2 (index2 1 0 1)
      = ((2 : Int) * xW (index2 1 0 1)) / (0 : Int) :=
  ⟨(diagsm_coo_n_row_unguarded 2 cooMissing xW 1 1 yW 1).1,
   (diagsm_coo_n_row_unguarded 2 cooMissing xW 1 1 yW 1).2 1 0
     (by decide) (by decide) (by decide) (by decide)⟩

section CplxLemmas

/-- Real part of a complex sum. -/
theorem Cplx.add_re (a b : Cplx) : (a + b).re = a.re + b.re := rfl

/-- Imaginary part of a complex sum. -/
theorem Cplx.add_im (a b : Cplx) : (a + b).im = a.im + b.im := rfl

/-- Real part of complex zero. -/
theorem Cplx.zero_re : (0 : Cplx).re = 0 := rfl

/-- Imaginary part of complex zero. -/
theorem Cplx.zero_im : (0 : Cplx).im = 0 := rfl

/-- Associativity of the componentwise complex addition. -/
theorem cplx_add_assoc (a b c : Cplx) : a + b + c = a + (b + c) := by
  apply Cplx.ext <;> simp [Cplx.add_re, Cplx.add_im] <;> ring

/-- Left identity of the componentwise complex addition. -/
theorem cplx_zero_add (a : Cplx) : 0 + a = a := by
  apply Cplx.ext <;> simp [Cplx.add_re, Cplx.add_im, Cplx.zero_re, Cplx.zero_im]

/-- Right identity of the componentwise complex addition. -/
theorem cplx_add_zero (a : Cplx) : a + 0 = a := by
  apply Cplx.ext <;> simp [Cplx.add_re, Cplx.add_im, Cplx.zero_re, Cplx.zero_im]

/-- Shifting the initial accumulator out of an additive fold. -/
theorem foldl_add_shift {β : Type} (f : β → Cplx) :
    ∀ (l : List β) (a b : Cplx),
      l.foldl (fun acc e => acc + f e) (a + b) = a + l.foldl (fun acc e => acc + f e) b := by
  intro l
  induction l with
  | nil => intro a b; rfl
  | cons e t ih =>
    intro a b
    rw [List.foldl_cons, List.foldl_cons, cplx_add_assoc]
    exact ih a (b + f e)

/-- Pointwise value of a fold that accumulates val e into cell pos e: the final
value of cell k is its initial value plus the sum of the contributions aimed at
k, in list order. -/
theorem foldl_addUpdate_apply {β : Type} (pos : β → Nat) (val : β → Cplx) :
    ∀ (l : List β) (y : Nat → Cplx) (k : Nat),
      (l.foldl (fun y e => Function.update y (pos e) (y (pos e) + val e)) y) k
        = y k + (l.filter (fun e => decide (pos e = k))).foldl (fun a e => a + val e) 0 := by
  intro l
  induction l with
  | nil => intro y k; exact (cplx_add_zero (y k)).symm
  | cons e t ih =>
    intro y k
    rw [List.foldl_cons, ih]
    by_cases h : pos e = k
    · subst h
      rw [Function.update_same]
      rw [List.filter_cons_of_pos (by simp), List.foldl_cons, cplx_zero_add]
      have h2 : (t.filter (fun e2 => decide (pos e2 = pos e))).foldl
            (fun a e2 => a + val e2) (val e)
          = val e + (t.filter (fun e2 => decide (pos e2 = pos e))).foldl
            (fun a e2 => a + val e2) 0 := by
        rw [← cplx_add_zero (val e), foldl_add_shift, cplx_add_zero]
      rw [h2, ← cplx_add_assoc]
    · rw [List.filter_cons_of_neg (by simp [h])]
      have hupd : (Function.update y (pos e) (y (pos e) + val e)) k = y k := by
        rw [Function.update_apply, if_neg (fun hh : k = pos e => h hh.symm)]
      rw [hupd]

/-- The guarded accumulation loop of the trmv kernel equals the unguarded loop
over the entries that pass the strict lower-triangle test. -/
theorem trmv_loop2_filter (alpha : Cplx) (x : Nat → Cplx) :
    ∀ (l : List (Nat × Nat × Cplx)) (y : Nat → Cplx),
      l.foldl
        (fun y e =>
          if e.2.1 < e.1 then
            Function.update y e.2.1 (y e.2.1 + alpha * (cmp_conj e.2.2 * x e.1))
          else y)
        y
      = (l.filter (fun e => decide (e.2.1 < e.1))).foldl
          (fun y e => Function.update y e.2.1 (y e.2.1 + alpha * (cmp_conj e.2.2 * x e.1)))
          y := by
  intro l
  induction l with
  | nil => intro y; rfl
  | cons e t ih =>
    intro y
    by_cases h : e.2.1 < e.1
    · rw [List.foldl_cons, if_pos h, List.filter_cons_of_pos (by simp [h]), List.foldl_cons]
      exact ih _
    · rw [List.foldl_cons, if_neg h, List.filter_cons_of_neg (by simp [h])]
      exact ih _

/-- Pointwise value of the scaling loop of the trmv kernel. -/
theorem trmv_loop1_apply (alpha beta : Cplx) (x : Nat → Cplx) :
    ∀ (m : Nat) (y : Nat → Cplx) (k : Nat),
      ((List.range m).foldl (fun y i => Function.update y i (y i * beta + alpha * x i)) y) k
        = if k < m then y k * beta + alpha * x k else y k := by
  intro m
  induction m with
  | zero => intro y k; rw [List.range_zero, List.foldl_nil, if_neg (Nat.not_lt_zero k)]
  | succ n ih =>
    intro y k
    rw [List.range_succ, List.foldl_append, List.foldl_cons, List.foldl_nil]
    by_cases hk : k = n
    · subst hk
      rw [Function.update_same, ih, if_neg (Nat.lt_irrefl k), if_pos (Nat.lt_succ_self k)]
    · rw [Function.update_apply, if_neg hk, ih]
      by_cases hkn : k < n
      · rw [if_pos hkn, if_pos (Nat.lt_succ_of_lt hkn)]
      · rw [if_neg hkn,
          if_neg (fun hh : k < n + 1 => hkn (Nat.lt_of_le_of_ne (Nat.lt_succ_iff.mp hh) hk))]

end CplxLemmas

/-- C7: on a square matrix, the unit-diagonal lower-fill conjugate COO triangular
multiply returns success; the value delivered at index i is the unit-diagonal
contribution alpha * x[i] (plus beta * y[i], never reading storage) plus the sum
of alpha * (conj v * x[r]) over exactly the stored entries (r, c, v) with r > c
and c = i, each stored value conjugated before multiplication; and the whole
result is unchanged when the entries with r <= c are removed, so those entries
never contribute. -/
theorem trmv_c_coo_u_lo_conj_plain_spec (alpha beta : Cplx) (A : SPMAT_COO Cplx)
    (x y : Nat → Cplx) (hsq : A.rows = A.cols) :
    (trmv_c_coo_u_lo_conj_plain alpha A x beta y).1 = Status.success ∧
    (∀ i, i < A.rows →
      (trmv_c_coo_u_lo_conj_plain alpha A x beta y).2 i
        = (y i * beta + alpha * x i)
          + (A.entries.filter (fun e => decide (e.2.1 < e.1 ∧ e.2.1 = i))).foldl
              (fun a e => a + alpha * (cmp_conj e.2.2 * x e.1)) 0) ∧
    trmv_c_coo_u_lo_conj_plain alpha A x beta y
      = trmv_c_coo_u_lo_conj_plain alpha
          ⟨A.rows, A.cols, A.entries.filter (fun e => decide (e.2.1 < e.1))⟩ x beta y := by
  have hne : ¬(A.rows ≠ A.cols) := fun h => h hsq
  refine ⟨?_, ?_, ?_⟩
  · simp only [trmv_c_coo_u_lo_conj_plain, if_neg hne]
  · intro i hi
    simp only [trmv_c_coo_u_lo_conj_plain, if_neg hne]
    rw [trmv_loop2_filter]
    have h2 := foldl_addUpdate_apply (β := Nat × Nat × Cplx)
      (fun e => e.2.1) (fun e => alpha * (cmp_conj e.2.2 * x e.1))
      (A.entries.filter (fun e => decide (e.2.1 < e.1)))
      ((List.range A.rows).foldl (fun y i => Function.update y i (y i * beta + alpha * x i)) y)
      i
    rw [h2]
    rw [trmv_loop1_apply, if_pos hi]
    rw [List.filter_filter]
    have hpred : ∀ e : Nat × Nat × Cplx,
        (decide (e.2.1 = i) && decide (e.2.1 < e.1)) = decide (e.2.1 < e.1 ∧ e.2.1 = i) := by
      intro e
      by_cases hA : e.2.1 < e.1 <;> by_cases hB : e.2.1 = i <;> simp [hA, hB]
    simp only [hpred]
  · simp only [trmv_c_coo_u_lo_conj_plain, if_neg hne]
    rw [trmv_loop2_filter, trmv_loop2_filter]
    rw [List.filter_filter]
    simp only [Bool.and_self]

/-- Evaluation of the C7 theorem at a concrete complex matrix, with every
hypothesis discharged at that input. -/
theorem trmv_c_coo_u_lo_conj_plain_spec_witness :
    (cplxW.rows = cplxW.cols) ∧
    ((trmv_c_coo_u_lo_conj_plain ⟨2, 1⟩ cplxW xC ⟨1, 0⟩ yC).1 = Status.success ∧
      (trmv_c_coo_u_lo_conj_plain ⟨2, 1⟩ cplxW xC ⟨1, 0⟩ yC).2 0
        = (yC 0 * ⟨1, 0⟩ + (⟨2, 1⟩ : Cplx) * xC 0)
          + (cplxW.entries.filter (fun e => decide (e.2.1 < e.1 ∧ e.2.1 = 0))).foldl
              (fun a e => a + (⟨2, 1⟩ : Cplx) * (cmp_conj e.2.2 * xC e.1)) 0 ∧
      trmv_c_coo_u_lo_conj_plain ⟨2, 1⟩ cplxW xC ⟨1, 0⟩ yC
        = trmv_c_coo_u_lo_conj_plain ⟨2, 1⟩
            ⟨cplxW.rows, cplxW.cols, cplxW.entries.filter (fun e => decide (e.2.1 < e.1))⟩
            xC ⟨1, 0⟩ yC) :=
  ⟨rfl,
   (trmv_c_coo_u_lo_conj_plain_spec ⟨2, 1⟩ ⟨1, 0⟩ cplxW xC yC rfl).1,
   (trmv_c_coo_u_lo_conj_plain_spec ⟨2, 1⟩ ⟨1, 0⟩ cplxW xC yC rfl).2.1 0 (by decide),
   (trmv_c_coo_u_lo_conj_plain_spec ⟨2, 1⟩ ⟨1, 0⟩ cplxW xC yC rfl).2.2⟩

/-- C2: the solve entry point returns not-initialized when the internal matrix,
x or y is null, and invalid-value when the handle datatype mismatches the build
datatype, the operation is conjugate-transpose under a real build, or the matrix
is not square; in every such case y is returned unchanged and the result does
not depend on the dispatch tables, so no kernel runs. -/
theorem trsm_precondition_checks {μ α : Type} (BD : Datatype) (T : TrsmTables μ α)
    (operation : Operation) (alpha : α) (A : alphasparse_matrix μ)
    (descr : alpha_matrix_descr) (layout : Layout)
    (x : Option (Nat → α)) (columns ldx : Nat) (y : Option (Nat → α)) (ldy : Nat) :
    ((A.mat = none ∨ x = none ∨ y = none) →
      alphasparse_x_trsm BD T operation alpha A descr layout x columns ldx y ldy
        = (Status.not_initialized, y)) ∧
    (A.mat ≠ none → x ≠ none → y ≠ none →
      (A.datatype ≠ BD
        ∨ (BD.isComplex = false ∧ operation = Operation.conjugate_transpose)
        ∨ A.rows ≠ A.cols) →
      alphasparse_x_trsm BD T operation alpha A descr layout x columns ldx y ldy
        = (Status.invalid_value, y)) := by
  constructor
  · intro h
    cases hAm : A.mat with
    | none => simp [alphasparse_x_trsm, hAm]
    | some m =>
      cases hx2 : x with
      | none => simp [alphasparse_x_trsm, hAm, hx2]
      | some xv =>
        cases hy2 : y with
        | none => simp [alphasparse_x_trsm, hAm, hx2, hy2]
        | some yv =>
          exfalso
          rcases h with h | h | h
          · rw [hAm] at h; exact Option.noConfusion h
          · rw [hx2] at h; exact Option.noConfusion h
          · rw [hy2] at h; exact Option.noConfusion h
  · intro hA hx2 hy2 hbad
    obtain ⟨m, hm⟩ := Option.ne_none_iff_exists'.mp hA
    obtain ⟨xv, hxv⟩ := Option.ne_none_iff_exists'.mp hx2
    obtain ⟨yv, hyv⟩ := Option.ne_none_iff_exists'.mp hy2
    simp only [alphasparse_x_trsm, hm, hxv, hyv]
    rcases hbad with h | h | h
    · rw [if_pos h]
    · by_cases h1 : A.datatype ≠ BD
      · rw [if_pos h1]
      · rw [if_neg h1, if_pos h]
    · by_cases h1 : A.datatype ≠ BD
      · rw [if_pos h1]
      · rw [if_neg h1]
        by_cases h2 : BD.isComplex = false ∧ operation = Operation.conjugate_transpose
        · rw [if_pos h2]
        · rw [if_neg h2, if_pos h]

/-- Evaluation of the C2 theorem at concrete inputs: a null internal matrix
yields not-initialized, and a non-square handle yields invalid-value, in both
cases with y returned unchanged even under all-null dispatch tables. -/
theorem trsm_precondition_checks_witness :
    (alphasparse_x_trsm Datatype.double_d tablesNone Operation.non_transpose (2 : Int)
        handleNullUnit descrTri Layout.row_major (some xW) 1 1 (some yW) 1
      = (Status.not_initialized, some yW)) ∧
    (alphasparse_x_trsm Datatype.double_d tablesNone Operation.non_transpose (2 : Int)
        handleRect descrTri Layout.row_major (some xW) 1 1 (some yW) 1
      = (Status.invalid_value, some yW)) :=
  ⟨(trsm_precondition_checks Datatype.double_d tablesNone Operation.non_transpose 2
      handleNullUnit descrTri Layout.row_major (some xW) 1 1 (some yW) 1).1
      (Or.inl rfl),
   (trsm_precondition_checks Datatype.double_d tablesNone Operation.non_transpose 2
      handleRect descrTri Layout.row_major (some xW) 1 1 (some yW) 1).2
      (by decide) (Option.some_ne_none xW) (Option.some_ne_none yW)
      (Or.inr (Or.inr (by decide)))⟩

/-- Helper for C3: the per-format dispatch block returns not-supported with y
untouched whenever the semantic type is neither triangular nor diagonal, or the
addressed slot of the applicable table is null. -/
theorem trsm_dispatch_not_supported {μ α : Type} (operation : Operation) (alpha : α)
    (m : μ) (descr : alpha_matrix_descr) (layout : Layout) (xv : Nat → α)
    (columns ldx : Nat) (yv : Nat → α) (ldy : Nat) (y : Option (Nat → α))
    (ttab dtab : Nat → Option (TrsmKernel μ α))
    (h1 : descr.type = MatrixKind.triangular →
      ttab (index4 operation.toNat layout.toNat descr.mode.toNat descr.diag.toNat
        LAYOUT_NUM FILL_MODE_NUM DIAG_TYPE_NUM) = none)
    (h2 : descr.type = MatrixKind.diagonal →
      dtab (index2 layout.toNat descr.diag.toNat DIAG_TYPE_NUM) = none) :
    trsm_dispatch operation alpha m descr layout xv columns ldx yv ldy y ttab dtab
      = (Status.not_supported, y) := by
  unfold trsm_dispatch
  by_cases ht : descr.type = MatrixKind.triangular
  · rw [if_pos ht, h1 ht]
  · rw [if_neg ht]
    by_cases ht2 : descr.type = MatrixKind.diagonal
    · rw [if_pos ht2, h2 ht2]
    · rw [if_neg ht2]

/-- C3: once the null, datatype, conjugate and squareness checks pass, any
dispatch lookup failure - a semantic type that is neither triangular nor
diagonal, a format outside the six dispatched ones, or a null slot at the
computed key - makes the solve return not-supported with y untouched, never
invoking a kernel. -/
theorem trsm_lookup_failure {μ α : Type} (BD : Datatype) (T : TrsmTables μ α)
    (operation : Operation) (alpha : α) (m : μ) (A : alphasparse_matrix μ)
    (descr : alpha_matrix_descr) (layout : Layout) (xv yv : Nat → α)
    (columns ldx ldy : Nat)
    (hm : A.mat = some m) (hdt : A.datatype = BD)
    (hconj : ¬(BD.isComplex = false ∧ operation = Operation.conjugate_transpose))
    (hsq : A.rows = A.cols) :
    (descr.type ≠ MatrixKind.triangular → descr.type ≠ MatrixKind.diagonal →
      alphasparse_x_trsm BD T operation alpha A descr layout (some xv) columns ldx
          (some yv) ldy
        = (Status.not_supported, some yv)) ∧
    (A.format ≠ Format.csr → A.format ≠ Format.csc → A.format ≠ Format.coo →
      A.format ≠ Format.sky → A.format ≠ Format.bsr → A.format ≠ Format.dia →
      alphasparse_x_trsm BD T operation alpha A descr layout (some xv) columns ldx
          (some yv) ldy
        = (Status.not_supported, some yv)) ∧
    ((descr.type = MatrixKind.triangular →
        T.trsmTab A.format (index4 operation.toNat layout.toNat descr.mode.toNat
          descr.diag.toNat LAYOUT_NUM FILL_MODE_NUM DIAG_TYPE_NUM) = none) →
      (descr.type = MatrixKind.diagonal →
        T.diagTab A.format (index2 layout.toNat descr.diag.toNat DIAG_TYPE_NUM) = none) →
      alphasparse_x_trsm BD T operation alpha A descr layout (some xv) columns ldx
          (some yv) ldy
        = (Status.not_supported, some yv)) := by
  have hd1 : ¬(A.datatype ≠ BD) := fun h => h hdt
  have hd3 : ¬(A.rows ≠ A.cols) := fun h => h hsq
  refine ⟨?_, ?_, ?_⟩
  · intro ht1 ht2
    simp only [alphasparse_x_trsm, hm, if_neg hd1, if_neg hconj, if_neg hd3]
    cases A.format <;>
      first
        | rfl
        | exact trsm_dispatch_not_supported operation alpha m descr layout xv columns
            ldx yv ldy (some yv) _ _ (fun h => absurd h ht1) (fun h => absurd h ht2)
  · intro hf1 hf2 hf3 hf4 hf5 hf6
    simp only [alphasparse_x_trsm, hm, if_neg hd1, if_neg hconj, if_neg hd3]
  · intro h1 h2
    simp only [alphasparse_x_trsm, hm, if_neg hd1, if_neg hconj, if_neg hd3]
    cases hfmt : A.format <;> rw [hfmt] at h1 h2 <;>
      first
        | rfl
        | exact trsm_dispatch_not_supported operation alpha m descr layout xv columns
            ldx yv ldy (some yv) _ _ h1 h2

/-- Evaluation of the C3 theorem at concrete inputs: a general-type descriptor,
a GEBSR-format handle, and a null slot under a triangular descriptor all yield
not-supported with y unchanged. -/
theorem trsm_lookup_failure_witness :
    (alphasparse_x_trsm Datatype.double_d tablesNone Operation.non_transpose (2 : Int)
        handleOkUnit descrGen Layout.row_major (some xW) 1 1 (some yW) 1
      = (Status.not_supported, some yW)) ∧
    (alphasparse_x_trsm Datatype.double_d tablesNone Operation.non_transpose (2 : Int)
        handleGebsrUnit descrTri Layout.row_major (some xW) 1 1 (some yW) 1
      = (Status.not_supported, some yW)) ∧
    (alphasparse_x_trsm Datatype.double_d tablesNone Operation.non_transpose (2 : Int)
        handleOkUnit descrTri Layout.row_major (some xW) 1 1 (some yW) 1
      = (Status.not_supported, some yW)) :=
  ⟨(trsm_lookup_failure Datatype.double_d tablesNone Operation.non_transpose 2 ()
      handleOkUnit descrGen Layout.row_major xW yW 1 1 1 rfl rfl (by decide)
      rfl).1 (by decide) (by decide),
   (trsm_lookup_failure Datatype.double_d tablesNone Operation.non_transpose 2 ()
      handleGebsrUnit descrTri Layout.row_major xW yW 1 1 1 rfl rfl (by decide)
      rfl).2.1 (by decide) (by decide) (by decide) (by decide) (by decide) (by decide),
   (trsm_lookup_failure Datatype.double_d tablesNone Operation.non_transpose 2 ()
      handleOkUnit descrTri Layout.row_major xW yW 1 1 1 rfl rfl (by decide)
      rfl).2.2 (fun _ => rfl) (fun _ => rfl)⟩

/-- C8: exporting a valid GEBSR handle with matching datatype and format writes
every output parameter - the index base always reported as zero-based, the
dimensions, block dimensions, block layout and storage arrays copied unchanged
from the stored matrix - and returns success. -/
theorem export_gebsr_success {α : Type} (BD : Datatype)
    (source : alphasparse_matrix (SPMAT_GEBSR α)) (m : SPMAT_GEBSR α)
    (hm : source.mat = some m) (hdt : source.datatype = BD)
    (hfmt : source.format = Format.gebsr) :
    alphasparse_x_export_gebsr BD source
      = (Status.success,
         some ⟨IndexBase.zero_base, m.block_layout, m.rows, m.cols, m.row_block_dim,
               m.col_block_dim, m.rows_start, m.rows_end, m.col_indx, m.values⟩) := by
  simp only [alphasparse_x_export_gebsr, hm]
  rw [if_neg (fun h => h hdt), if_neg (fun h => h hfmt)]

/-- Evaluation of the C8 theorem at a concrete GEBSR handle, with every
hypothesis discharged at that input. -/
theorem export_gebsr_success_witness :
    alphasparse_x_export_gebsr Datatype.double_d gebsrHandle
      = (Status.success,
         some ⟨IndexBase.zero_base, gebsrPayload.block_layout, gebsrPayload.rows,
               gebsrPayload.cols, gebsrPayload.row_block_dim, gebsrPayload.col_block_dim,
               gebsrPayload.rows_start, gebsrPayload.rows_end, gebsrPayload.col_indx,
               gebsrPayload.values⟩) :=
  export_gebsr_success Datatype.double_d gebsrHandle gebsrPayload rfl rfl rfl

/-- C10: exporting a GEBSR handle with a null internal matrix returns
not-supported - a different status than the not-initialized used by the solve
entry point for null storage - and neither then nor on a datatype or format
mismatch (invalid-value) is any output parameter written. -/
theorem export_gebsr_failure_modes {μ α : Type} (BD : Datatype)
    (source : alphasparse_matrix (SPMAT_GEBSR α))
    (T : TrsmTables μ α) (operation : Operation) (alpha : α)
    (A : alphasparse_matrix μ) (descr : alpha_matrix_descr) (layout : Layout)
    (x : Option (Nat → α)) (columns ldx : Nat) (y : Option (Nat → α)) (ldy : Nat) :
    (source.mat = none →
      alphasparse_x_export_gebsr BD source = (Status.not_supported, none)) ∧
    (source.mat ≠ none → source.datatype ≠ BD →
      alphasparse_x_export_gebsr BD source = (Status.invalid_value, none)) ∧
    (source.mat ≠ none → source.datatype = BD → source.format ≠ Format.gebsr →
      alphasparse_x_export_gebsr BD source = (Status.invalid_value, none)) ∧
    (A.mat = none →
      (alphasparse_x_trsm BD T operation alpha A descr layout x columns ldx y ldy).1
        = Status.not_initialized) ∧
    Status.not_supported ≠ Status.not_initialized := by
  refine ⟨?_, ?_, ?_, ?_, by decide⟩
  · intro h
    simp [alphasparse_x_export_gebsr, h]
  · intro hA hdt
    obtain ⟨m, hm⟩ := Option.ne_none_iff_exists'.mp hA
    simp only [alphasparse_x_export_gebsr, hm]
    rw [if_pos hdt]
  · intro hA hdt hfmt
    obtain ⟨m, hm⟩ := Option.ne_none_iff_exists'.mp hA
    simp only [alphasparse_x_export_gebsr, hm]
    rw [if_neg (fun h => h hdt), if_pos hfmt]
  · intro h
    simp [alphasparse_x_trsm, h]

/-- Evaluation of the C10 theorem at concrete inputs covering the null, datatype
mismatch and format mismatch cases, together with the contrasting solve entry
status on a null handle. -/
theorem export_gebsr_failure_modes_witness :
    (alphasparse_x_export_gebsr Datatype.double_d gebsrNullHandle
      = (Status.not_supported, none)) ∧
    (alphasparse_x_export_gebsr Datatype.double_d gebsrWrongType
      = (Status.invalid_value, none)) ∧
    (alphasparse_x_export_gebsr Datatype.double_d gebsrWrongFormat
      = (Status.invalid_value, none)) ∧
    ((alphasparse_x_trsm Datatype.double_d tablesNone Operation.non_transpose (2 : Int)
        handleNullUnit descrTri Layout.row_major (some xW) 1 1 (some yW) 1).1
      = Status.not_initialized) ∧
    Status.not_supported ≠ Status.not_initialized :=
  ⟨(export_gebsr_failure_modes Datatype.double_d gebsrNullHandle tablesNone
      Operation.non_transpose 2 handleNullUnit descrTri Layout.row_major (some xW) 1 1
      (some yW) 1).1 rfl,
   (export_gebsr_failure_modes Datatype.double_d gebsrWrongType tablesNone
      Operation.non_transpose 2 handleNullUnit descrTri Layout.row_major (some xW) 1 1
      (some yW) 1).2.1 (by decide) (by decide),
   (export_gebsr_failure_modes Datatype.double_d gebsrWrongFormat tablesNone
      Operation.non_transpose 2 handleNullUnit descrTri Layout.row_major (some xW) 1 1
      (some yW) 1).2.2.1 (by decide) (by decide) (by decide),
   (export_gebsr_failure_modes Datatype.double_d gebsrNullHandle tablesNone
      Operation.non_transpose 2 handleNullUnit descrTri Layout.row_major (some xW) 1 1
      (some yW) 1).2.2.2.1 rfl,
   by decide⟩

end AlphaSparse
